import Mathlib

/-!
Shallow embedding of the log-streaming core of the `colog` repository:
the Docker stream parser (`docker.go`: `parseLogEntry`, `StreamLogs`) and
the per-container log context and context manager
(`internal/container`: `ContainerContext`, `ContainerContextManager`).

Go strings are modelled as lists of bytes (`List Nat`, each < 256 on real
inputs); `time.Time` is modelled by the `docker.GoTime` record of broken-down
fields plus a zone offset; `time.Now()` is passed in explicitly as a `now`
parameter.  Channel close / panic is modelled with `Option` (`none` = panic).
-/

namespace docker

/-- Byte predicate for the ASCII whitespace fast path of Go `strings.TrimSpace`
(tab, LF, VT, FF, CR, space).  The source function also
trims non-ASCII Unicode whitespace; the claims only exercise ASCII input. -/
def isSpaceB (b : Nat) : Bool :=
  b == 9 || b == 10 || b == 11 || b == 12 || b == 13 || b == 32

/-- Left trim: drop leading whitespace bytes. -/
def ltrim (l : List Nat) : List Nat := l.dropWhile isSpaceB

/-- Right trim: drop trailing whitespace bytes. -/
def rtrim (l : List Nat) : List Nat := (l.reverse.dropWhile isSpaceB).reverse

/-- Model of `strings.TrimSpace` on byte strings. -/
def trimSpace (l : List Nat) : List Nat := rtrim (ltrim l)

/-- Model of the Go `time.Time` type as broken-down calendar fields plus a zone
offset in minutes east of UTC.  The Go zero value `time.Time{}` is
January 1, year 1, 00:00:00 UTC. -/
structure GoTime where
  year : Nat
  month : Nat
  day : Nat
  hour : Nat
  minute : Nat
  second : Nat
  nanos : Nat
  offsetMin : Int
deriving DecidableEq, Repr

/-- The Go zero `time.Time`. -/
def zeroGoTime : GoTime := ⟨1, 1, 1, 0, 0, 0, 0, 0⟩

/-- ASCII decimal digit test. -/
def isDigitB (b : Nat) : Bool := 48 ≤ b && b ≤ 57

/-- Read exactly two digit bytes as a number. -/
def get2 : List Nat → Option (Nat × List Nat)
  | a :: b :: rest =>
    if isDigitB a && isDigitB b then some ((a - 48) * 10 + (b - 48), rest) else none
  | _ => none

/-- Read exactly four digit bytes as a number (the `2006` year field). -/
def get4 (l : List Nat) : Option (Nat × List Nat) := do
  let (x, l) ← get2 l
  let (y, l) ← get2 l
  pure (x * 100 + y, l)

/-- Consume one expected byte. -/
def expectByte (c : Nat) : List Nat → Option (List Nat)
  | b :: rest => if b = c then some rest else none
  | [] => none

/-- Split off a maximal run of digit bytes. -/
def takeDigits : List Nat → List Nat × List Nat
  | [] => ([], [])
  | b :: rest =>
    if isDigitB b then
      let (d, r) := takeDigits rest
      (b :: d, r)
    else ([], b :: rest)

/-- Nanoseconds denoted by a fraction-digit run, per the Go
`parseNanoseconds` routine: the first nine digits, right-padded with zeros
(extra digits beyond nine are truncated). -/
def fracNanos (ds : List Nat) : Nat :=
  let d9 := ds.take 9
  d9.foldl (fun a b => a * 10 + (b - 48)) 0 * 10 ^ (9 - d9.length)

/-- Leap-year rule used by the Go `isLeap` function. -/
def isLeap (y : Nat) : Bool := y % 4 == 0 && (y % 100 != 0 || y % 400 == 0)

/-- Days in a month, per the Go `daysIn` function. -/
def daysIn (m y : Nat) : Nat :=
  if m = 2 then (if isLeap y then 29 else 28)
  else if m = 4 ∨ m = 6 ∨ m = 9 ∨ m = 11 then 30
  else 31

/-- Parse the `2006-01-02T15:04:05` date-time body with the Go range checks
(month 1–12, day within the month, hour ≤ 23, minute ≤ 59, second ≤ 59). -/
def parseDateTime (l : List Nat) : Option (GoTime × List Nat) := do
  let (y, l) ← get4 l
  let l ← expectByte 45 l
  let (mo, l) ← get2 l
  let l ← expectByte 45 l
  let (d, l) ← get2 l
  let l ← expectByte 84 l
  let (h, l) ← get2 l
  let l ← expectByte 58 l
  let (mi, l) ← get2 l
  let l ← expectByte 58 l
  let (s, l) ← get2 l
  if 1 ≤ mo ∧ mo ≤ 12 ∧ 1 ≤ d ∧ d ≤ daysIn mo y ∧ h ≤ 23 ∧ mi ≤ 59 ∧ s ≤ 59 then
    pure (⟨y, mo, d, h, mi, s, 0, 0⟩, l)
  else none

/-- Optional fractional-second field accepted at parse time after the
seconds field: a `.` followed by one or more digits (the strict Go RFC3339
parse path). -/
def parseFracOpt (l : List Nat) : Nat × List Nat :=
  match l with
  | 46 :: b :: rest =>
    if isDigitB b then
      let (ds, r) := takeDigits (b :: rest)
      (fracNanos ds, r)
    else (0, l)
  | _ => (0, l)

/-- The `Z07:00` zone suffix: either exactly `Z`, or a sign and `hh:mm`
with hour ≤ 23 and minute ≤ 59; must consume the whole remainder. -/
def parseZone (l : List Nat) : Option Int :=
  match l with
  | [90] => some 0
  | [sg, h1, h2, 58, m1, m2] =>
    if (sg = 43 ∨ sg = 45) ∧ isDigitB h1 ∧ isDigitB h2 ∧ isDigitB m1 ∧ isDigitB m2 then
      let hh := (h1 - 48) * 10 + (h2 - 48)
      let mm := (m1 - 48) * 10 + (m2 - 48)
      if hh ≤ 23 ∧ mm ≤ 59 then
        some ((if sg = 43 then (1 : Int) else -1) * (hh * 60 + mm))
      else none
    else none
  | _ => none

/-- The strict Go RFC3339 parse routine (`parseRFC3339`), used by
`time.Parse` for both the `time.RFC3339` and `time.RFC3339Nano` layouts:
date-time body, optional fractional second, zone. -/
def parseRFC3339Strict (l : List Nat) : Option GoTime := do
  let (t, l) ← parseDateTime l
  let (ns, l) := parseFracOpt l
  let off ← parseZone l
  pure { t with nanos := ns, offsetMin := off }

/-- `time.Parse(time.RFC3339Nano, ·)` — nanosecond-precision RFC3339. -/
def goParseRFC3339Nano : List Nat → Option GoTime := parseRFC3339Strict

/-- `time.Parse(time.RFC3339, ·)` — second-precision RFC3339 (the Go parse
accepts an optional fractional second here too, via the same strict
routine). -/
def goParseRFC3339 : List Nat → Option GoTime := parseRFC3339Strict

/-- `time.Parse("2006-01-02T15:04:05.<n zeros>Z", ·)`: date-time body, a
`.` with exactly `n` fraction digits, then a literal `Z` ending the
input. -/
def goParseFixedFracZ (n : Nat) (l : List Nat) : Option GoTime := do
  let (t, l) ← parseDateTime l
  let l ← expectByte 46 l
  let (ds, l) := takeDigits l
  if ds.length = n then
    match l with
    | [90] => pure { t with nanos := fracNanos ds }
    | _ => none
  else none

/-- The `timestampFormats` list of `parseLogEntry` (docker.go lines
364–369), in source order: RFC3339Nano, RFC3339,
`"2006-01-02T15:04:05.000000000Z"`, `"2006-01-02T15:04:05.000Z"`. -/
def timestampFormats : List (List Nat → Option GoTime) :=
  [goParseRFC3339Nano, goParseRFC3339, goParseFixedFracZ 9, goParseFixedFracZ 3]

/-- The format loop of `parseLogEntry` (docker.go lines 371–379): first
successful parse wins. -/
def firstParse : List (List Nat → Option GoTime) → List Nat → Option GoTime
  | [], _ => none
  | f :: fs, l =>
    match f l with
    | some t => some t
    | none => firstParse fs l

/-- `docker.LogEntry` (docker.go lines 322–327). -/
structure LogEntry where
  ContainerID : String
  Timestamp : GoTime
  Message : List Nat
  Stream : String
deriving DecidableEq, Repr

/-- The Go zero value `LogEntry{}`. -/
def zeroLogEntry : LogEntry := ⟨"", zeroGoTime, [], ""⟩

/-- The Docker multiplexed-header strip of `parseLogEntry` (docker.go
lines 341–349): if the line is at least 8 bytes long and its first byte
is 1 or 2, skip the 8-byte header. -/
def stripDockerHeader (line : List Nat) : List Nat :=
  if 8 ≤ line.length then
    match line.head? with
    | some b => if b = 1 ∨ b = 2 then line.drop 8 else line
    | none => line
  else line

/-- `strings.SplitN(line, " ", 2)`: the part before the first space byte,
and, when a space exists, the remainder after it. -/
def splitNSpace2 (l : List Nat) : List Nat × Option (List Nat) :=
  match l with
  | [] => ([], none)
  | b :: rest =>
    if b = 32 then ([], some rest)
    else (b :: (splitNSpace2 rest).1, (splitNSpace2 rest).2)

/-- Body of `parseLogEntry` after the initial empty check (docker.go lines
339–401): header strip already applied to `strippedLine`; `originalLine`
is the raw input kept for the final fallback.  Trims, returns the zero
entry if empty, splits on the first space, tries the timestamp formats in
order, falls back to `now` with the whole line as message, and finally
falls back to the trimmed original line if the message is empty. -/
def parseTail (cid : String) (originalLine strippedLine : List Nat) (now : GoTime) : LogEntry :=
  let line := trimSpace strippedLine
  if line.length = 0 then zeroLogEntry
  else
    let parts := splitNSpace2 line
    let tsMsg : GoTime × List Nat :=
      match parts.2 with
      | some rest =>
        match firstParse timestampFormats parts.1 with
        | some ts => (ts, rest)
        | none => (now, line)
      | none => (now, line)
    let message := if tsMsg.2.isEmpty then trimSpace originalLine else tsMsg.2
    ⟨cid, tsMsg.1, message, "stdout"⟩

/-- `parseLogEntry(containerID, line)` (docker.go lines 329–402), with the
wall clock `time.Now()` passed explicitly as `now`. -/
def parseLogEntry (cid : String) (line : List Nat) (now : GoTime) : LogEntry :=
  if line.length = 0 then zeroLogEntry
  else parseTail cid line (stripDockerHeader line) now

/-- Encode an ASCII Lean string as the byte string Go would see. -/
def strBytes (s : String) : List Nat := s.data.map Char.toNat

/-- `docker.Container` (docker.go lines 17–22). -/
structure Container where
  ID : String
  Name : String
  Image : String
  Status : String
deriving DecidableEq, Repr

/-!
### Stream-reader task of `StreamLogs` (docker.go lines 290–317)

The interaction of the goroutine with the scanner, the bounded channel and the
cancellation signal is modelled as a small-step transition relation.  A
send into the channel (`case logCh <- entry`) is only enabled when the
queue holds fewer than 100 entries — the channel created by
`NewContainerContext` has capacity 100 — so a full channel blocks the
producer instead of dropping the entry.
-/

/-- One iteration of the scanner loop applied to a raw line (docker.go
lines 304–314): an entry reaches the send statement exactly when the line
is non-empty and parses to a non-empty message. -/
def goodEntry (cid : String) (now : GoTime) (l : List Nat) : Option LogEntry :=
  if l.isEmpty then none
  else
    let e := parseLogEntry cid l now
    if e.Message.isEmpty then none else some e

/-- The entries the scanner loop would ever send for a given line
sequence. -/
def goodEntries (cid : String) (now : GoTime) (lines : List (List Nat)) : List LogEntry :=
  lines.filterMap (goodEntry cid now)

/-- State of one stream-reader goroutine together with its channel:
unread lines, an entry parsed but not yet sent, the channel queue, the
send history, the cancellation flag, and whether the goroutine has
returned. -/
structure ReaderState where
  pending : List (List Nat)
  inFlight : Option LogEntry
  chanQ : List LogEntry
  sent : List LogEntry
  cancelled : Bool
  done : Bool
deriving DecidableEq, Repr

/-- Initial reader state for a stream producing `lines`. -/
def initReader (lines : List (List Nat)) : ReaderState :=
  ⟨lines, none, [], [], false, false⟩

/-- Transitions of the stream-reader goroutine plus its environment
(consumer dequeues, cancellation firing), following docker.go lines
299–317. -/
inductive ReaderStep (cid : String) (now : GoTime) : ReaderState → ReaderState → Prop
  /-- Scan a line that is empty or parses to an empty message: nothing is
  sent (lines 305, 307). -/
  | readSkip (s : ReaderState) (l : List Nat) (rest : List (List Nat)) :
      s.done = false → s.inFlight = none → s.pending = l :: rest →
      goodEntry cid now l = none →
      ReaderStep cid now s { s with pending := rest }
  /-- Scan a line that parses to a non-empty entry; the entry now awaits
  its send (lines 306–308). -/
  | readParse (s : ReaderState) (l : List Nat) (rest : List (List Nat)) (e : LogEntry) :
      s.done = false → s.inFlight = none → s.pending = l :: rest →
      goodEntry cid now l = some e →
      ReaderStep cid now s { s with pending := rest, inFlight := some e }
  /-- `case logCh <- entry:` — enabled only while the channel has room
  (capacity 100); the blocked producer simply has no enabled send
  transition until space frees (line 309). -/
  | send (s : ReaderState) (e : LogEntry) :
      s.done = false → s.inFlight = some e → s.chanQ.length < 100 →
      ReaderStep cid now s
        { s with inFlight := none, chanQ := s.chanQ ++ [e], sent := s.sent ++ [e] }
  /-- The consumer (`processLogs`) receives one entry from the channel. -/
  | recv (s : ReaderState) (e : LogEntry) (q : List LogEntry) :
      s.done = false → s.chanQ = e :: q →
      ReaderStep cid now s { s with chanQ := q }
  /-- The shared cancellation signal fires. -/
  | cancel (s : ReaderState) :
      s.done = false →
      ReaderStep cid now s { s with cancelled := true }
  /-- `case <-ctx.Done(): return` — observed at the loop head or at the
  send select (lines 301, 310). -/
  | exitCancel (s : ReaderState) :
      s.done = false → s.cancelled = true →
      ReaderStep cid now s { s with done := true }
  /-- `scanner.Scan()` returns false at end of stream and the goroutine
  returns (line 299). -/
  | exitEOF (s : ReaderState) :
      s.done = false → s.pending = [] → s.inFlight = none →
      ReaderStep cid now s { s with done := true }

/-- Reflexive-transitive closure of `ReaderStep`. -/
inductive ReaderReach (cid : String) (now : GoTime) : ReaderState → ReaderState → Prop
  | refl (s : ReaderState) : ReaderReach cid now s s
  | tail {a b c : ReaderState} :
      ReaderReach cid now a b → ReaderStep cid now b c → ReaderReach cid now a c

end docker

namespace container

open docker

/-!
### `ContainerContext` (internal/container, part_007)

The channel of a context is modelled by its `closed` flag (a `close` of an
already-closed Go channel panics, modelled as `none`); the UI fields
(`LogView`, `Color`, `app`) are outside the scope of the embedding.
-/

/-- State of one `ContainerContext` relevant to the lifecycle and buffer
claims: the container, the log buffer, the channel closed flag, and the
`cancel` / selection / stream-started flags. -/
structure CtxState where
  Container : docker.Container
  LogBuffer : List LogEntry
  chanClosed : Bool
  cancelCalled : Bool
  IsSelected : Bool
  streamStarted : Bool
deriving DecidableEq, Repr

/-- `NewContainerContext` (part_007 lines 30–43): fresh open channel of
capacity 100, empty buffer, nothing selected or started. -/
def newContainerContext (c : docker.Container) : CtxState :=
  { Container := c, LogBuffer := [], chanClosed := false,
    cancelCalled := false, IsSelected := false, streamStarted := false }

/-- The Go builtin `close(ch)`: panics (`none`) when the channel is already
closed. -/
def closeChannel (closed : Bool) : Option Bool :=
  if closed then none else some true

/-- `Cleanup` (part_007 lines 160–167): `cancel()` (non-nil after
construction), then `close(cc.LogChannel)` (also non-nil after
construction) with no closed-guard — the close panics if the channel was
already closed. -/
def cleanupCtx (s : CtxState) : Option CtxState :=
  let s' := { s with cancelCalled := true }
  (closeChannel s'.chanClosed).map (fun c => { s' with chanClosed := c })

/-- `defer close(logCh)` in the stream-reader goroutine of `StreamLogs`
(docker.go line 291), run when the goroutine exits (cancellation or end
of stream). -/
def streamReaderExitClose (s : CtxState) : Option CtxState :=
  (closeChannel s.chanClosed).map (fun c => { s with chanClosed := c })

/-- One iteration of the buffer update in `processLogs` (part_007 lines
112–117): append the entry, then drop the oldest entry if the buffer
exceeds 50. -/
def processLogStep (buffer : List LogEntry) (entry : LogEntry) : List LogEntry :=
  let b := buffer ++ [entry]
  if 50 < b.length then b.drop 1 else b

/-- The processing loop consuming a sequence of entries from the log
channel. -/
def processEntries (s : CtxState) (entries : List LogEntry) : CtxState :=
  { s with LogBuffer := entries.foldl processLogStep s.LogBuffer }

/-- `GetLogBuffer` (part_007 lines 150–157): a defensive copy of the
buffer — in the embedding, its contents. -/
def getLogBufferCtx (s : CtxState) : List LogEntry := s.LogBuffer

/-!
### `ContainerContextManager` (part_007 lines 199–303)

The Go map `map[string]*ContainerContext` is modelled as an association
list with update-or-append insertion; `orderedIDs` is the explicit
insertion-ordered index list.
-/

/-- Lookup in the containerID → context map (`nil` for a missing key is
`none`). -/
def lookupA : List (String × CtxState) → String → Option CtxState
  | [], _ => none
  | (k, v) :: t, key => if k = key then some v else lookupA t key

/-- Map insertion `m[k] = v`: overwrite an existing key, else append. -/
def insertA : List (String × CtxState) → String → CtxState → List (String × CtxState)
  | [], k, v => [(k, v)]
  | (k0, v0) :: t, k, v =>
    if k0 = k then (k0, v) :: t else (k0, v0) :: insertA t k v

/-- `ContainerContextManager` state: the map, the ordered index list, and
the round-robin color index (the palette itself is a single repeated
color and carries no information used by the claims). -/
structure ManagerState where
  contexts : List (String × CtxState)
  orderedIDs : List String
  colorIndex : Nat
deriving DecidableEq, Repr

/-- `NewContainerContextManager` (part_007 lines 209–216). -/
def newManager : ManagerState := { contexts := [], orderedIDs := [], colorIndex := 0 }

/-- One iteration of `InitializeContexts` (part_007 lines 223–234): pick
the next color, build the context, register it in the map and the ordered
list.  `ContainerContext.Initialize` always returns nil in the source
(`startLogStreaming` has no failing path), so the early-error return is
dead code. -/
def initStep (m : ManagerState) (c : docker.Container) : ManagerState :=
  { contexts := insertA m.contexts c.ID (newContainerContext c)
    orderedIDs := m.orderedIDs ++ [c.ID]
    colorIndex := m.colorIndex + 1 }

/-- `InitializeContexts` (part_007 lines 219–237). -/
def InitializeContexts (m : ManagerState) (cs : List docker.Container) : ManagerState :=
  cs.foldl initStep m

/-- `GetContext` (part_007 lines 240–245). -/
def GetContext (m : ManagerState) (id : String) : Option CtxState :=
  lookupA m.contexts id

/-- `GetAllContexts` (part_007 lines 248–259): walk the ordered list,
keeping each context found in the map. -/
def GetAllContexts (m : ManagerState) : List CtxState :=
  m.orderedIDs.filterMap (lookupA m.contexts)

/-- `GetContextByIndex` (part_007 lines 262–271): in range, index the
ordered list and look the id up in the map (a missing map entry is the Go
nil); out of range, nil. -/
def GetContextByIndex (m : ManagerState) (i : Nat) : Option CtxState :=
  if h : i < m.orderedIDs.length then lookupA m.contexts (m.orderedIDs.get ⟨i, h⟩)
  else none

/-- `Count` (part_007 lines 274–278). -/
def Count (m : ManagerState) : Nat := m.orderedIDs.length

/-- Manager `Cleanup` (part_007 lines 289–298): call `Cleanup` on every
context — which panics (`none`) if the channel of any context is already
closed — then clear the map and the ordered list. -/
def managerCleanup (m : ManagerState) : Option ManagerState :=
  if m.contexts.all (fun kv => !kv.2.chanClosed) then
    some { contexts := [], orderedIDs := [], colorIndex := m.colorIndex }
  else none

/-- The manager operations quantified over by the key-set invariant
claim.  `StopAll` (part_007 lines 301–303) is an alias for `Cleanup`. -/
inductive MOp where
  | doInit (cs : List docker.Container)
  | doCleanup
  | doStopAll
deriving Repr

/-- Apply one manager operation; `none` is a panic. -/
def applyOp (m : ManagerState) : MOp → Option ManagerState
  | .doInit cs => some (InitializeContexts m cs)
  | .doCleanup => managerCleanup m
  | .doStopAll => managerCleanup m

/-- Run a sequence of manager operations from a given state. -/
def applyOpsFrom (m : ManagerState) : List MOp → Option ManagerState
  | [] => some m
  | op :: t =>
    match applyOp m op with
    | some m2 => applyOpsFrom m2 t
    | none => none

/-- Run a sequence of manager operations on a fresh manager. -/
def applyOps (ops : List MOp) : Option ManagerState :=
  applyOpsFrom newManager ops

/-- The key-set invariant: an id occurs in the ordered index list exactly
when the map has an entry for it. -/
def keysetOK (m : ManagerState) : Prop :=
  ∀ id : String, id ∈ m.orderedIDs ↔ (lookupA m.contexts id).isSome = true

end container

/-!
### Concrete inputs used by the witness theorems
-/

/-- A fixed nonzero wall-clock instant standing in for `time.Now()` in
concrete examples. -/
def exNow : docker.GoTime := ⟨2025, 6, 1, 12, 0, 0, 0, 0⟩

/-- A sample raw log line with no timestamp. -/
def exLineHi : List Nat := docker.strBytes "hi"

/-- The entry the parser produces for `exLineHi`. -/
def exEntryHi : docker.LogEntry := docker.parseLogEntry "c" exLineHi exNow

/-- Final reader state of the concrete witness trace: the single line was
read and parsed, its entry sent, and end of stream reached. -/
def exReaderFinal : docker.ReaderState := ⟨[], none, [exEntryHi], [exEntryHi], false, true⟩

/-- Example containers for the manager witnesses. -/
def exA : docker.Container := ⟨"a1", "alpha", "img-a", "Up"⟩

/-- Second example container. -/
def exB : docker.Container := ⟨"b2", "beta", "img-b", "Up"⟩

/-- Third example container. -/
def exC : docker.Container := ⟨"c3", "gamma", "img-c", "Up"⟩

/-- Operation sequence for the key-set invariant witness: bulk init, full
teardown, re-init with a fresh snapshot. -/
def exOps : List container.MOp :=
  [container.MOp.doInit [exA, exB], container.MOp.doCleanup, container.MOp.doInit [exC]]

/-- The manager state reached by `exOps`. -/
def exMgr : container.ManagerState :=
  ⟨[("c3", container.newContainerContext exC)], ["c3"], 3⟩

/-- A dummy log entry for the ring-buffer witness. -/
def exEntryDummy : docker.LogEntry := ⟨"c", exNow, [120], "stdout"⟩

/-!
## Helper lemmas
-/

namespace docker

theorem dropWhile_append_self {p : Nat → Bool} {u v : List Nat}
    (h : List.dropWhile p (u ++ v) = u ++ v) : List.dropWhile p u = u := by
  cases u with
  | nil => simp
  | cons a t =>
    by_cases hp : p a
    · exfalso
      rw [List.cons_append, List.dropWhile_cons_of_pos hp] at h
      have hle : (List.dropWhile p (t ++ v)).length ≤ (t ++ v).length :=
        (List.dropWhile_sublist p).length_le
      have := congrArg List.length h
      simp [List.length_append] at this hle
      omega
    · simp [List.dropWhile_cons_of_neg hp]

theorem dropWhile_cons_head_false {p : Nat → Bool} {b : Nat} {t : List Nat}
    (h : List.dropWhile p (b :: t) = b :: t) : p b = false := by
  by_cases hp : p b
  · exfalso
    rw [List.dropWhile_cons_of_pos hp] at h
    have hle : (List.dropWhile p t).length ≤ t.length := (List.dropWhile_sublist p).length_le
    have := congrArg List.length h
    simp at this
    omega
  · simpa using hp

theorem rtrim_append_self {u v : List Nat} (h : rtrim (u ++ v) = u ++ v) :
    rtrim v = v := by
  unfold rtrim at h ⊢
  rw [List.reverse_append] at h
  have h2 : List.dropWhile isSpaceB (v.reverse ++ u.reverse) = v.reverse ++ u.reverse := by
    have := congrArg List.reverse h
    simpa [List.reverse_append] using this
  rw [dropWhile_append_self h2]
  simp

theorem rtrim_trimSpace (l : List Nat) : rtrim (trimSpace l) = trimSpace l := by
  unfold trimSpace rtrim
  rw [List.reverse_reverse, List.dropWhile_idempotent]

theorem rtrim_length_le (l : List Nat) : (rtrim l).length ≤ l.length := by
  unfold rtrim
  have hle : (List.dropWhile isSpaceB l.reverse).length ≤ l.reverse.length :=
    (List.dropWhile_sublist isSpaceB).length_le
  simpa using hle

theorem rtrim_concat_space (u : List Nat) : rtrim (u ++ [32]) = rtrim u := by
  unfold rtrim
  rw [List.reverse_append]
  simp [List.dropWhile_cons_of_pos, isSpaceB]

theorem all_space_of_trim_nil {l : List Nat} (h : trimSpace l = []) :
    ∀ b ∈ l, isSpaceB b = true := by
  unfold trimSpace rtrim ltrim at h
  have h1 : List.dropWhile isSpaceB (List.dropWhile isSpaceB l).reverse = [] := by
    rwa [List.reverse_eq_nil_iff] at h
  rw [List.dropWhile_eq_nil_iff] at h1
  have h2 : ∀ b ∈ List.dropWhile isSpaceB l, isSpaceB b = true := by
    intro b hb
    exact h1 b (List.mem_reverse.mpr hb)
  intro b hb
  rw [show l = List.takeWhile isSpaceB l ++ List.dropWhile isSpaceB l from
    (List.takeWhile_append_dropWhile isSpaceB l).symm] at hb
  rcases List.mem_append.mp hb with hb | hb
  · exact List.mem_takeWhile_imp hb
  · exact h2 b hb

theorem splitNSpace2_some {l p0 p1 : List Nat} (h : splitNSpace2 l = (p0, some p1)) :
    l = p0 ++ 32 :: p1 := by
  induction l generalizing p0 with
  | nil => simp [splitNSpace2] at h
  | cons b rest ih =>
    by_cases hb : b = 32
    · subst hb
      simp [splitNSpace2] at h
      simp [h.1, h.2]
    · have hsp : splitNSpace2 (b :: rest) = (b :: (splitNSpace2 rest).1, (splitNSpace2 rest).2) := by
        simp [splitNSpace2, hb]
      rw [hsp] at h
      have h0 : b :: (splitNSpace2 rest).1 = p0 := congrArg Prod.fst h
      have h2 : (splitNSpace2 rest).2 = some p1 := congrArg Prod.snd h
      have hrest : splitNSpace2 rest = ((splitNSpace2 rest).1, some p1) := by
        rw [← h2]
      have hih := ih hrest
      rw [← h0, List.cons_append, ← hih]

theorem splitNSpace2_none {l : List Nat} : (splitNSpace2 l).2 = none ↔ 32 ∉ l := by
  induction l with
  | nil => simp [splitNSpace2]
  | cons b rest ih =>
    by_cases hb : b = 32
    · subst hb; simp [splitNSpace2]
    · simp [splitNSpace2, hb, ih]
      intro h
      exact fun hc => hb hc.symm

end docker

namespace docker

theorem parseLogEntry_cons {cid : String} {line : List Nat} {now : GoTime}
    (h : line ≠ []) :
    parseLogEntry cid line now = parseTail cid line (stripDockerHeader line) now := by
  unfold parseLogEntry
  rw [if_neg (by simpa using h)]

theorem stripDockerHeader_eq_ite (line : List Nat) :
    stripDockerHeader line =
      if 8 ≤ line.length ∧ (line.head? = some 1 ∨ line.head? = some 2)
      then line.drop 8 else line := by
  unfold stripDockerHeader
  cases line with
  | nil => simp
  | cons b rest =>
    simp only [List.head?_cons, Option.some.injEq]
    by_cases h8 : 8 ≤ (b :: rest).length
    · rw [if_pos h8]
      by_cases hb : b = 1 ∨ b = 2
      · rw [if_pos hb, if_pos ⟨h8, hb⟩]
      · rw [if_neg hb, if_neg (by tauto)]
    · rw [if_neg h8, if_neg (by tauto)]

theorem parseLogEntry_of_trim_nil {cid : String} {line : List Nat} {now : GoTime}
    (h : trimSpace line = []) : parseLogEntry cid line now = zeroLogEntry := by
  cases hl : line with
  | nil => simp [parseLogEntry]
  | cons b rest =>
    subst hl
    have hall := all_space_of_trim_nil h
    have hb : isSpaceB b = true := hall b (by simp)
    have hb12 : ¬((b :: rest).head? = some 1 ∨ (b :: rest).head? = some 2) := by
      simp only [List.head?_cons, Option.some.injEq]
      simp [isSpaceB] at hb
      omega
    have hstrip : stripDockerHeader (b :: rest) = b :: rest := by
      rw [stripDockerHeader_eq_ite]
      rw [if_neg (by tauto)]
    rw [parseLogEntry_cons (by simp), hstrip]
    unfold parseTail
    rw [h]
    simp

theorem parseTail_parse {cid : String} {orig stripped p0 p1 : List Nat} {now ts : GoTime}
    (hsplit : splitNSpace2 (trimSpace stripped) = (p0, some p1))
    (hts : firstParse timestampFormats p0 = some ts) :
    parseTail cid orig stripped now = ⟨cid, ts, p1, "stdout"⟩ := by
  have hst : trimSpace stripped = p0 ++ 32 :: p1 := splitNSpace2_some hsplit
  have hne : ¬(trimSpace stripped).length = 0 := by rw [hst]; simp
  have hp1 : p1 ≠ [] := by
    intro h0
    subst h0
    have hfix := rtrim_trimSpace stripped
    rw [hst] at hfix
    have hcat : (p0 ++ 32 :: ([] : List Nat)) = p0 ++ [32] := rfl
    rw [hcat, rtrim_concat_space] at hfix
    have hlen := rtrim_length_le p0
    have := congrArg List.length hfix
    simp [List.length_append] at this
    omega
  obtain ⟨c, cs, hcc⟩ := List.exists_cons_of_ne_nil hp1
  simp only [parseTail, hsplit, hts, if_neg hne, hcc]
  simp [List.isEmpty]

theorem parseTail_noparse {cid : String} {orig stripped p0 p1 : List Nat} {now : GoTime}
    (hsplit : splitNSpace2 (trimSpace stripped) = (p0, some p1))
    (hts : firstParse timestampFormats p0 = none) :
    parseTail cid orig stripped now = ⟨cid, now, trimSpace stripped, "stdout"⟩ := by
  have hst : trimSpace stripped = p0 ++ 32 :: p1 := splitNSpace2_some hsplit
  have hne : ¬(trimSpace stripped).length = 0 := by rw [hst]; simp
  have hmsg : trimSpace stripped ≠ [] := by rw [hst]; simp
  obtain ⟨c, cs, hcc⟩ := List.exists_cons_of_ne_nil hmsg
  simp only [parseTail, hsplit, hts, if_neg hne]
  rw [hcc]
  simp [List.isEmpty]

theorem parseTail_nosplit {cid : String} {orig stripped : List Nat} {now : GoTime}
    (hne : trimSpace stripped ≠ [])
    (hsplit : (splitNSpace2 (trimSpace stripped)).2 = none) :
    parseTail cid orig stripped now = ⟨cid, now, trimSpace stripped, "stdout"⟩ := by
  obtain ⟨c, cs, hcc⟩ := List.exists_cons_of_ne_nil hne
  simp only [parseTail, hsplit, if_neg (show ¬(trimSpace stripped).length = 0 by simpa using hne)]
  rw [hcc]
  simp [List.isEmpty]

end docker

namespace container

theorem foldl_processLogStep (es : List docker.LogEntry) :
    ∀ b : List docker.LogEntry, b.length ≤ 50 →
      es.foldl processLogStep b = (b ++ es).drop (b.length + es.length - 50) := by
  induction es with
  | nil =>
    intro b hb
    simp only [List.foldl_nil, List.append_nil, List.length_nil, Nat.add_zero]
    have h0 : b.length - 50 = 0 := by omega
    rw [h0]
    simp
  | cons e t ih =>
    intro b hb
    rw [List.foldl_cons]
    by_cases h50 : b.length < 50
    · have hstep : processLogStep b e = b ++ [e] := by
        unfold processLogStep
        rw [if_neg (by simp; omega)]
      rw [hstep, ih (b ++ [e]) (by simp; omega)]
      have hl : (b ++ [e]) ++ t = b ++ e :: t := by simp
      rw [hl]
      congr 1
      simp
      omega
    · have hb50 : b.length = 50 := by omega
      have hstep : processLogStep b e = (b ++ [e]).drop 1 := by
        unfold processLogStep
        rw [if_pos (by simp; omega)]
      have hlen : ((b ++ [e]).drop 1).length ≤ 50 := by simp; omega
      rw [hstep, ih _ hlen]
      have hdl : ((b ++ [e]).drop 1).length = 50 := by simp; omega
      have hsw : ((b ++ [e]).drop 1) ++ t = (b ++ e :: t).drop 1 := by
        have hd : (b ++ [e] ++ t).drop 1 = (b ++ [e]).drop 1 ++ t :=
          List.drop_append_of_le_length (by simp)
        rw [← hd]
        congr 1
        simp
      rw [hdl, hsw, List.drop_drop]
      congr 1
      simp
      omega

theorem lookupA_isSome_insertA (l : List (String × CtxState)) (k id : String) (v : CtxState) :
    (lookupA (insertA l k v) id).isSome = true ↔
      ((lookupA l id).isSome = true ∨ id = k) := by
  induction l with
  | nil =>
    simp only [insertA, lookupA]
    by_cases h : k = id
    · subst h; simp
    · rw [if_neg h]
      simp only [lookupA, Option.isSome_none]
      constructor
      · intro hf; exact absurd hf (by simp)
      · rintro (hf | hf)
        · exact absurd hf (by simp)
        · exact absurd hf.symm h
  | cons p t ih =>
    obtain ⟨k0, v0⟩ := p
    simp only [insertA]
    by_cases h0 : k0 = k
    · rw [if_pos h0]
      subst h0
      simp only [lookupA]
      by_cases h1 : k0 = id
      · simp [h1]
      · have h1x : ¬id = k0 := fun he => h1 he.symm
        simp [h1, h1x]
    · rw [if_neg h0]
      simp only [lookupA]
      by_cases h1 : k0 = id
      · simp [h1]
      · simp [h1, ih]

theorem keysetOK_initStep {m : ManagerState} (h : keysetOK m) (c : docker.Container) :
    keysetOK (initStep m c) := by
  intro id
  have hm := h id
  simp only [initStep]
  rw [List.mem_append, lookupA_isSome_insertA]
  simp [hm]

theorem keysetOK_fold {m : ManagerState} (cs : List docker.Container) (h : keysetOK m) :
    keysetOK (InitializeContexts m cs) := by
  induction cs generalizing m with
  | nil => simpa [InitializeContexts] using h
  | cons c t ih =>
    have : InitializeContexts m (c :: t) = InitializeContexts (initStep m c) t := rfl
    rw [this]
    exact ih (keysetOK_initStep h c)

theorem keysetOK_empty : keysetOK ⟨[], [], 0⟩ := by
  intro id
  simp [lookupA]

theorem keysetOK_applyOp {m m' : ManagerState} {op : MOp}
    (h : keysetOK m) (happ : applyOp m op = some m') : keysetOK m' := by
  cases op with
  | doInit cs =>
    simp [applyOp] at happ
    rw [← happ]
    exact keysetOK_fold cs h
  | doCleanup =>
    simp [applyOp, managerCleanup] at happ
    obtain ⟨_, hm⟩ := happ
    rw [← hm]
    intro id
    simp [lookupA]
  | doStopAll =>
    simp [applyOp, managerCleanup] at happ
    obtain ⟨_, hm⟩ := happ
    rw [← hm]
    intro id
    simp [lookupA]

theorem keysetOK_applyOpsFrom {m m' : ManagerState} {ops : List MOp}
    (h : keysetOK m) (happ : applyOpsFrom m ops = some m') : keysetOK m' := by
  induction ops generalizing m with
  | nil => simp [applyOpsFrom] at happ; rwa [← happ]
  | cons op t ih =>
    simp only [applyOpsFrom] at happ
    cases hstep : applyOp m op with
    | none => rw [hstep] at happ; simp at happ
    | some m2 =>
      rw [hstep] at happ
      exact ih (keysetOK_applyOp h hstep) happ

end container

namespace container

theorem insertA_of_not_key {l : List (String × CtxState)} {k : String} (v : CtxState)
    (h : ∀ p ∈ l, p.1 ≠ k) : insertA l k v = l ++ [(k, v)] := by
  induction l with
  | nil => simp [insertA]
  | cons p t ih =>
    obtain ⟨k0, v0⟩ := p
    have hk0 : k0 ≠ k := h (k0, v0) (by simp)
    simp only [insertA, if_neg hk0, List.cons_append]
    rw [ih (fun q hq => h q (by simp [hq]))]

theorem initFold_orderedIDs (cs : List docker.Container) :
    ∀ m : ManagerState,
      (InitializeContexts m cs).orderedIDs = m.orderedIDs ++ cs.map (fun c => c.ID) := by
  induction cs with
  | nil => intro m; simp [InitializeContexts]
  | cons c t ih =>
    intro m
    have hstep : InitializeContexts m (c :: t) = InitializeContexts (initStep m c) t := rfl
    rw [hstep, ih (initStep m c)]
    simp [initStep]

theorem initFold_contexts (cs : List docker.Container) :
    ∀ m : ManagerState,
      (∀ p ∈ m.contexts, p.1 ∉ cs.map (fun c => c.ID)) →
      (cs.map (fun c => c.ID)).Nodup →
      (InitializeContexts m cs).contexts =
        m.contexts ++ cs.map (fun c => (c.ID, newContainerContext c)) := by
  induction cs with
  | nil => intro m _ _; simp [InitializeContexts]
  | cons c t ih =>
    intro m hdisj hnd
    rw [List.map_cons, List.nodup_cons] at hnd
    have hstep : InitializeContexts m (c :: t) = InitializeContexts (initStep m c) t := rfl
    have hins : insertA m.contexts c.ID (newContainerContext c) =
        m.contexts ++ [(c.ID, newContainerContext c)] := by
      apply insertA_of_not_key
      intro p hp
      have hthis := hdisj p hp
      rw [List.map_cons, List.mem_cons] at hthis
      push_neg at hthis
      exact hthis.1
    have hdisj' : ∀ p ∈ (initStep m c).contexts, p.1 ∉ t.map (fun c => c.ID) := by
      intro p hp
      simp only [initStep] at hp
      rw [hins] at hp
      rcases List.mem_append.mp hp with hp | hp
      · have hthis := hdisj p hp
        rw [List.map_cons, List.mem_cons] at hthis
        push_neg at hthis
        exact hthis.2
      · rw [List.mem_singleton] at hp
        rw [hp]
        exact hnd.1
    rw [hstep, ih (initStep m c) hdisj' hnd.2]
    simp only [initStep]
    rw [hins]
    simp

theorem lookupA_map_pair (cs : List docker.Container)
    (hnd : (cs.map (fun c => c.ID)).Nodup) :
    ∀ c ∈ cs, lookupA (cs.map (fun c => (c.ID, newContainerContext c))) c.ID =
      some (newContainerContext c) := by
  induction cs with
  | nil => intro c hc; simp at hc
  | cons c0 t ih =>
    intro c hc
    rw [List.map_cons, List.nodup_cons] at hnd
    rcases List.mem_cons.mp hc with hc | hc
    · subst hc
      simp [lookupA]
    · have hne : c0.ID ≠ c.ID := by
        intro he
        exact hnd.1 (he ▸ List.mem_map.mpr ⟨c, hc, rfl⟩)
      simp only [List.map_cons, lookupA, if_neg hne]
      exact ih hnd.2 c hc

theorem getAll_map_pair (cs : List docker.Container)
    (hnd : (cs.map (fun c => c.ID)).Nodup) :
    (cs.map (fun c => c.ID)).filterMap
        (lookupA (cs.map (fun c => (c.ID, newContainerContext c)))) =
      cs.map newContainerContext := by
  induction cs with
  | nil => simp
  | cons c0 t ih =>
    rw [List.map_cons, List.nodup_cons] at hnd
    have hhead : lookupA ((c0.ID, newContainerContext c0) ::
        t.map (fun c => (c.ID, newContainerContext c))) c0.ID =
        some (newContainerContext c0) := by
      simp [lookupA]
    have hrest : ∀ id ∈ t.map (fun c => c.ID),
        lookupA ((c0.ID, newContainerContext c0) ::
          t.map (fun c => (c.ID, newContainerContext c))) id =
        lookupA (t.map (fun c => (c.ID, newContainerContext c))) id := by
      intro id hid
      have hne : c0.ID ≠ id := by
        intro he
        exact hnd.1 (he ▸ hid)
      simp [lookupA, if_neg hne]
    simp only [List.map_cons, List.filterMap_cons, hhead]
    rw [List.filterMap_congr hrest]
    rw [ih hnd.2]

end container

namespace docker

theorem goodEntry_message_ne {cid : String} {now : GoTime} {l : List Nat} {e : LogEntry}
    (h : goodEntry cid now l = some e) : e.Message ≠ [] := by
  unfold goodEntry at h
  by_cases h1 : l.isEmpty
  · rw [if_pos h1] at h; cases h
  · rw [if_neg h1] at h
    by_cases h2 : (parseLogEntry cid l now).Message.isEmpty
    · rw [if_pos h2] at h; cases h
    · rw [if_neg h2] at h
      have he := Option.some.inj h
      rw [← he]
      simpa [List.isEmpty_iff] using h2

theorem reader_invariant {cid : String} {now : GoTime} {lines : List (List Nat)}
    {s : ReaderState} (h : ReaderReach cid now (initReader lines) s) :
    (∃ consumed, lines = consumed ++ s.pending ∧
        goodEntries cid now consumed = s.sent ++ s.inFlight.toList) ∧
    s.chanQ.length ≤ 100 ∧
    (s.done = true → s.cancelled = true ∨ (s.pending = [] ∧ s.inFlight = none)) ∧
    (∀ e ∈ s.sent, e.Message ≠ []) ∧
    (∀ e ∈ s.inFlight.toList, e.Message ≠ []) := by
  induction h with
  | refl =>
    refine ⟨⟨[], by simp [initReader], by simp [goodEntries, initReader]⟩, ?_, ?_, ?_, ?_⟩
    · simp [initReader]
    · simp [initReader]
    · simp [initReader]
    · simp [initReader]
  | @tail b c hreach hstep ih =>
    obtain ⟨⟨consumed, hcons, hgood⟩, hchan, hdone, hsent, hinf⟩ := ih
    cases hstep with
    | readSkip l rest hd0 hif0 hpend hge =>
      refine ⟨⟨consumed ++ [l], ?_, ?_⟩, hchan, ?_, hsent, hinf⟩
      · rw [hcons, hpend]; simp
      · show goodEntries cid now (consumed ++ [l]) = b.sent ++ b.inFlight.toList
        have hnil : List.filterMap (goodEntry cid now) [l] = [] := by
          simp [List.filterMap_cons, hge]
        rw [goodEntries, List.filterMap_append, hnil, List.append_nil]
        exact hgood
      · intro hh
        have hh2 : b.done = true := hh
        rw [hd0] at hh2
        cases hh2
    | readParse l rest e hd0 hif0 hpend hge =>
      refine ⟨⟨consumed ++ [l], ?_, ?_⟩, hchan, ?_, hsent, ?_⟩
      · rw [hcons, hpend]; simp
      · show goodEntries cid now (consumed ++ [l]) = b.sent ++ (some e).toList
        have hone : List.filterMap (goodEntry cid now) [l] = [e] := by
          simp [List.filterMap_cons, hge]
        rw [goodEntries, List.filterMap_append, hone]
        rw [goodEntries] at hgood
        rw [hgood, hif0]
        simp
      · intro hh
        have hh2 : b.done = true := hh
        rw [hd0] at hh2
        cases hh2
      · show ∀ e2 ∈ (some e).toList, e2.Message ≠ []
        intro e2 he2
        simp at he2
        rw [he2]
        exact goodEntry_message_ne hge
    | send e hd0 hif hlt =>
      refine ⟨⟨consumed, hcons, ?_⟩, ?_, ?_, ?_, ?_⟩
      · show goodEntries cid now consumed = (b.sent ++ [e]) ++ (none : Option LogEntry).toList
        rw [hgood, hif]
        simp
      · show (b.chanQ ++ [e]).length ≤ 100
        simp
        omega
      · intro hh
        have hh2 : b.done = true := hh
        rw [hd0] at hh2
        cases hh2
      · show ∀ e2 ∈ b.sent ++ [e], e2.Message ≠ []
        intro e2 he2
        rcases List.mem_append.mp he2 with he2 | he2
        · exact hsent e2 he2
        · rw [List.mem_singleton] at he2
          rw [he2]
          apply hinf
          rw [hif]
          simp
      · show ∀ e2 ∈ (none : Option LogEntry).toList, e2.Message ≠ []
        simp
    | recv e q hd0 hq =>
      refine ⟨⟨consumed, hcons, hgood⟩, ?_, ?_, hsent, hinf⟩
      · show q.length ≤ 100
        rw [hq] at hchan
        simp at hchan
        omega
      · intro hh
        have hh2 : b.done = true := hh
        rw [hd0] at hh2
        cases hh2
    | cancel hd0 =>
      refine ⟨⟨consumed, hcons, hgood⟩, hchan, ?_, hsent, hinf⟩
      intro hh
      have hh2 : b.done = true := hh
      rw [hd0] at hh2
      cases hh2
    | exitCancel hd0 hc =>
      refine ⟨⟨consumed, hcons, hgood⟩, hchan, ?_, hsent, hinf⟩
      intro _
      left
      exact hc
    | exitEOF hd0 hp hif =>
      refine ⟨⟨consumed, hcons, hgood⟩, hchan, ?_, hsent, hinf⟩
      intro _
      right
      exact ⟨hp, hif⟩

end docker

/-!
## Claim theorems
-/

/-- C1: for every sequence of entries consumed from the log channel by the
processing loop of a fresh `ContainerContext`, `GetLogBuffer` returns
exactly the last `min(N, 50)` entries in arrival order (strict FIFO
eviction), and the buffer length never exceeds 50 after any prefix of the
sequence. -/
theorem ring_buffer_bound_and_content :
    ∀ (c : docker.Container) (entries : List docker.LogEntry),
      container.getLogBufferCtx
          (container.processEntries (container.newContainerContext c) entries) =
        entries.drop (entries.length - 50) ∧
      (container.getLogBufferCtx
          (container.processEntries (container.newContainerContext c) entries)).length ≤ 50 ∧
      (∀ p q : List docker.LogEntry, entries = p ++ q →
        (container.getLogBufferCtx
            (container.processEntries (container.newContainerContext c) p)).length ≤ 50) := by
  intro c entries
  have hfold : ∀ es : List docker.LogEntry,
      container.getLogBufferCtx (container.processEntries (container.newContainerContext c) es)
        = es.drop (es.length - 50) := by
    intro es
    show es.foldl container.processLogStep [] = es.drop (es.length - 50)
    have h := container.foldl_processLogStep es [] (by simp)
    simpa using h
  refine ⟨hfold entries, ?_, ?_⟩
  · rw [hfold entries, List.length_drop]
    omega
  · intro p q hpq
    rw [hfold p, List.length_drop]
    omega

/-- Witness for C1 at concrete inputs: three entries stay in order, and a
split prefix keeps the bound. -/
theorem ring_buffer_bound_and_content_witness :
    container.getLogBufferCtx
        (container.processEntries (container.newContainerContext exA)
          [exEntryDummy, exEntryDummy, exEntryDummy]) =
      [exEntryDummy, exEntryDummy, exEntryDummy] ∧
    (container.getLogBufferCtx
        (container.processEntries (container.newContainerContext exA)
          [exEntryDummy])).length ≤ 50 := by
  have h := ring_buffer_bound_and_content exA [exEntryDummy, exEntryDummy, exEntryDummy]
  constructor
  · have h1 := h.1
    simpa using h1
  · exact h.2.2 [exEntryDummy] [exEntryDummy, exEntryDummy] rfl

/-- C2 (code bug): `Cleanup` closes the log channel with no closed-guard,
so a second `Cleanup`, or a `Cleanup` after the stream-reader goroutine
has already closed the channel via its deferred close, double-closes the
channel — a Go panic (`none`). -/
theorem cleanup_double_close_panics :
    (container.cleanupCtx (container.newContainerContext exA)).bind container.cleanupCtx
      = none ∧
    (container.streamReaderExitClose (container.newContainerContext exA)).bind
      container.cleanupCtx = none := by
  constructor <;> rfl

/-- A concrete three-step trace of the stream-reader system: parse the
single line, send its entry, exit at end of stream. -/
theorem exReaderReachHolds :
    docker.ReaderReach "c" exNow (docker.initReader [exLineHi]) exReaderFinal := by
  have h1 : docker.ReaderStep "c" exNow (docker.initReader [exLineHi])
      ⟨[], some exEntryHi, [], [], false, false⟩ :=
    docker.ReaderStep.readParse (docker.initReader [exLineHi]) exLineHi [] exEntryHi
      rfl rfl rfl (by decide)
  have h2 : docker.ReaderStep "c" exNow
      (⟨[], some exEntryHi, [], [], false, false⟩ : docker.ReaderState)
      ⟨[], none, [exEntryHi], [exEntryHi], false, false⟩ :=
    docker.ReaderStep.send ⟨[], some exEntryHi, [], [], false, false⟩ exEntryHi
      rfl rfl (by decide)
  have h3 : docker.ReaderStep "c" exNow
      (⟨[], none, [exEntryHi], [exEntryHi], false, false⟩ : docker.ReaderState)
      exReaderFinal :=
    docker.ReaderStep.exitEOF ⟨[], none, [exEntryHi], [exEntryHi], false, false⟩
      rfl rfl rfl
  exact docker.ReaderReach.tail
    (docker.ReaderReach.tail (docker.ReaderReach.tail (docker.ReaderReach.refl _) h1) h2) h3

/-- C5: in every reachable state of the stream-reader task the bounded
channel holds at most its capacity of 100 entries, and if the task has
exited without the cancellation signal ever firing, every line that
parsed to a non-empty entry was delivered into the channel — no entry is
discarded because the channel is full. -/
theorem stream_backpressure_no_drop :
    ∀ (cid : String) (now : docker.GoTime) (lines : List (List Nat)) (s : docker.ReaderState),
      docker.ReaderReach cid now (docker.initReader lines) s →
      s.chanQ.length ≤ 100 ∧
      (s.done = true → s.cancelled = false → s.sent = docker.goodEntries cid now lines) := by
  intro cid now lines s h
  obtain ⟨⟨consumed, hcons, hgood⟩, hchan, hdone, _, _⟩ := docker.reader_invariant h
  refine ⟨hchan, ?_⟩
  intro hd hc
  rcases hdone hd with hcase | ⟨hp, hif⟩
  · rw [hcase] at hc; cases hc
  · rw [hp, List.append_nil] at hcons
    rw [hif] at hgood
    simp at hgood
    rw [hcons]
    exact hgood.symm

/-- Witness for C5 on the concrete trace. -/
theorem stream_backpressure_no_drop_witness :
    exReaderFinal.chanQ.length ≤ 100 ∧
    exReaderFinal.sent = docker.goodEntries "c" exNow [exLineHi] := by
  have h := stream_backpressure_no_drop "c" exNow [exLineHi] exReaderFinal exReaderReachHolds
  exact ⟨h.1, h.2 rfl rfl⟩

/-- C7: a line that is empty after trimming parses to an entry with an
empty message (the zero-entry no-op sentinel), and the stream-reader task
never sends an entry with an empty message into the log channel. -/
theorem empty_line_noop_sentinel :
    (∀ (cid : String) (line : List Nat) (now : docker.GoTime),
        docker.trimSpace line = [] →
        (docker.parseLogEntry cid line now).Message = []) ∧
    (∀ (cid : String) (now : docker.GoTime) (lines : List (List Nat))
        (s : docker.ReaderState),
        docker.ReaderReach cid now (docker.initReader lines) s →
        ∀ e ∈ s.sent, e.Message ≠ []) := by
  constructor
  · intro cid line now h
    rw [docker.parseLogEntry_of_trim_nil h]
    rfl
  · intro cid now lines s h
    exact (docker.reader_invariant h).2.2.2.1

/-- Witness for C7: the all-blank line and the concrete reader trace. -/
theorem empty_line_noop_sentinel_witness :
    (docker.parseLogEntry "c" (docker.strBytes "   ") exNow).Message = [] ∧
    (∀ e ∈ exReaderFinal.sent, e.Message ≠ []) := by
  exact ⟨empty_line_noop_sentinel.1 "c" (docker.strBytes "   ") exNow (by decide),
    empty_line_noop_sentinel.2 "c" exNow [exLineHi] exReaderFinal exReaderReachHolds⟩

/-- C8: in every manager state reachable by `InitializeContexts`,
`Cleanup` and `StopAll` from a fresh manager, an id is in the ordered
index list exactly when the containerID-to-context map has an entry for
it — the two key sets are identical. -/
theorem manager_keyset_invariant :
    ∀ (ops : List container.MOp) (m2 : container.ManagerState),
      container.applyOps ops = some m2 →
      ∀ id : String,
        id ∈ m2.orderedIDs ↔ (container.lookupA m2.contexts id).isSome = true := by
  intro ops m2 happ
  exact container.keysetOK_applyOpsFrom container.keysetOK_empty happ

/-- Witness for C8 on a concrete op sequence (init, teardown, re-init). -/
theorem manager_keyset_invariant_witness :
    ("c3" ∈ exMgr.orderedIDs ↔ (container.lookupA exMgr.contexts "c3").isSome = true) ∧
    ("a1" ∈ exMgr.orderedIDs ↔ (container.lookupA exMgr.contexts "a1").isSome = true) := by
  have happ : container.applyOps exOps = some exMgr := by decide
  exact ⟨manager_keyset_invariant exOps exMgr happ "c3",
    manager_keyset_invariant exOps exMgr happ "a1"⟩

/-- C3: `parseLogEntry` strips exactly the first 8 bytes before
interpreting the remainder precisely when the first byte is 1 or 2 and
the line is at least 8 bytes long, and otherwise leaves the line
untouched; a plain text line keeps its message, and the framed raw line
with a leading 0x01 and a length byte yields the parsed timestamp plus
message `hello`. -/
theorem frame_strip_iff :
    (∀ (cid : String) (now : docker.GoTime) (line : List Nat),
        docker.parseLogEntry cid line now =
          docker.parseTail cid line
            (if 8 ≤ line.length ∧ (line.head? = some 1 ∨ line.head? = some 2)
              then line.drop 8 else line) now) ∧
    (∀ now : docker.GoTime,
        (docker.parseLogEntry "c" (docker.strBytes "hello world") now).Message =
          docker.strBytes "hello world") ∧
    (∀ now : docker.GoTime,
        docker.parseLogEntry "c"
            ([1, 0, 0, 0, 0, 0, 0, 12] ++ docker.strBytes "2024-01-15T10:30:00Z hello") now =
          ⟨"c", ⟨2024, 1, 15, 10, 30, 0, 0, 0⟩, docker.strBytes "hello", "stdout"⟩) := by
  refine ⟨?_, ?_, ?_⟩
  · intro cid now line
    cases line with
    | nil => rfl
    | cons b rest =>
      rw [docker.parseLogEntry_cons (by simp), docker.stripDockerHeader_eq_ite]
  · intro now
    rfl
  · intro now
    rfl

/-- C4: after frame stripping and trimming, the first space splits off a
timestamp candidate that is tried against the four formats in order; a
successful parse becomes the timestamp with the remainder as message;
with no space or no successful parse the whole stripped line is the
message and the timestamp is the wall clock `now`, which is nonzero
whenever `now` is (as `time.Now()` always is). -/
theorem timestamp_first_match_and_fallback :
    (∀ (cid : String) (now ts : docker.GoTime) (line p0 p1 : List Nat),
        docker.splitNSpace2 (docker.trimSpace (docker.stripDockerHeader line)) =
          (p0, some p1) →
        docker.firstParse docker.timestampFormats p0 = some ts →
        docker.parseLogEntry cid line now = ⟨cid, ts, p1, "stdout"⟩) ∧
    (∀ (cid : String) (now : docker.GoTime) (line p0 p1 : List Nat),
        docker.splitNSpace2 (docker.trimSpace (docker.stripDockerHeader line)) =
          (p0, some p1) →
        docker.firstParse docker.timestampFormats p0 = none →
        docker.parseLogEntry cid line now =
          ⟨cid, now, docker.trimSpace (docker.stripDockerHeader line), "stdout"⟩) ∧
    (∀ (cid : String) (now : docker.GoTime) (line : List Nat),
        docker.trimSpace (docker.stripDockerHeader line) ≠ [] →
        (docker.splitNSpace2 (docker.trimSpace (docker.stripDockerHeader line))).2 = none →
        docker.parseLogEntry cid line now =
          ⟨cid, now, docker.trimSpace (docker.stripDockerHeader line), "stdout"⟩) ∧
    (∀ (cid : String) (now : docker.GoTime) (line : List Nat),
        docker.trimSpace (docker.stripDockerHeader line) ≠ [] →
        now ≠ docker.zeroGoTime →
        ((docker.splitNSpace2 (docker.trimSpace (docker.stripDockerHeader line))).2 = none ∨
          docker.firstParse docker.timestampFormats
            (docker.splitNSpace2 (docker.trimSpace (docker.stripDockerHeader line))).1 =
              none) →
        (docker.parseLogEntry cid line now).Timestamp = now ∧
          (docker.parseLogEntry cid line now).Timestamp ≠ docker.zeroGoTime) ∧
    (∀ (cid : String) (now : docker.GoTime),
        docker.parseLogEntry cid
            (docker.strBytes "2024-01-15T10:30:00.123456789Z started") now =
          ⟨cid, ⟨2024, 1, 15, 10, 30, 0, 123456789, 0⟩, docker.strBytes "started",
            "stdout"⟩) := by
  have hlineNe : ∀ {line p0 p1 : List Nat},
      docker.splitNSpace2 (docker.trimSpace (docker.stripDockerHeader line)) =
        (p0, some p1) → line ≠ [] := by
    intro line p0 p1 hsplit h0
    subst h0
    simp [docker.stripDockerHeader, docker.trimSpace, docker.ltrim, docker.rtrim,
      docker.splitNSpace2] at hsplit
  refine ⟨?_, ?_, ?_, ?_, ?_⟩
  · intro cid now ts line p0 p1 hsplit hts
    rw [docker.parseLogEntry_cons (hlineNe hsplit)]
    exact docker.parseTail_parse hsplit hts
  · intro cid now line p0 p1 hsplit hts
    rw [docker.parseLogEntry_cons (hlineNe hsplit)]
    exact docker.parseTail_noparse hsplit hts
  · intro cid now line hne hsp
    have hlne : line ≠ [] := by intro h0; subst h0; exact hne rfl
    rw [docker.parseLogEntry_cons hlne]
    exact docker.parseTail_nosplit hne hsp
  · intro cid now line hne hnow hdisj
    have hlne : line ≠ [] := by intro h0; subst h0; exact hne rfl
    rcases hdisj with hsp | hfp
    · rw [docker.parseLogEntry_cons hlne, docker.parseTail_nosplit hne hsp]
      exact ⟨rfl, hnow⟩
    · cases hsp : (docker.splitNSpace2
          (docker.trimSpace (docker.stripDockerHeader line))).2 with
      | none =>
        rw [docker.parseLogEntry_cons hlne, docker.parseTail_nosplit hne hsp]
        exact ⟨rfl, hnow⟩
      | some p1 =>
        have hsplit : docker.splitNSpace2
            (docker.trimSpace (docker.stripDockerHeader line)) =
            ((docker.splitNSpace2
              (docker.trimSpace (docker.stripDockerHeader line))).1, some p1) := by
          rw [← hsp]
        rw [docker.parseLogEntry_cons hlne, docker.parseTail_noparse hsplit hfp]
        exact ⟨rfl, hnow⟩
  · intro cid now
    rfl

/-- Witness for C4: the no-timestamp line takes the wall clock and the
whole trimmed line as message. -/
theorem timestamp_first_match_and_fallback_witness :
    docker.parseLogEntry "c" (docker.strBytes "garbage text with no timestamp") exNow =
      ⟨"c", exNow, docker.strBytes "garbage text with no timestamp", "stdout"⟩ ∧
    (docker.parseLogEntry "c" (docker.strBytes "garbage text with no timestamp")
        exNow).Timestamp ≠ docker.zeroGoTime := by
  constructor
  · have h := timestamp_first_match_and_fallback.2.1 "c" exNow
      (docker.strBytes "garbage text with no timestamp")
      (docker.strBytes "garbage") (docker.strBytes "text with no timestamp")
      (by decide) (by decide)
    rw [h]
    decide
  · exact (timestamp_first_match_and_fallback.2.2.2.1 "c" exNow
      (docker.strBytes "garbage text with no timestamp") (by decide) (by decide)
      (Or.inr (by decide))).2

/-- C10: a line that after stripping and trimming is non-empty and
contains no space becomes the message itself with the wall clock as
timestamp — the token is never consumed as a timestamp even when it
would parse as one. -/
theorem single_token_now_timestamp :
    ∀ (cid : String) (now : docker.GoTime) (line : List Nat),
      docker.trimSpace (docker.stripDockerHeader line) ≠ [] →
      32 ∉ docker.trimSpace (docker.stripDockerHeader line) →
      (docker.parseLogEntry cid line now).Timestamp = now ∧
      (docker.parseLogEntry cid line now).Message =
        docker.trimSpace (docker.stripDockerHeader line) := by
  intro cid now line hne hnsp
  have hlne : line ≠ [] := by intro h0; subst h0; exact hne rfl
  have hsp : (docker.splitNSpace2 (docker.trimSpace (docker.stripDockerHeader line))).2 =
      none := docker.splitNSpace2_none.mpr hnsp
  rw [docker.parseLogEntry_cons hlne, docker.parseTail_nosplit hne hsp]
  exact ⟨rfl, rfl⟩

/-- Witness for C10: a bare RFC3339 token parses as a timestamp on its
own, yet the entry keeps it as the message and takes `now`. -/
theorem single_token_now_timestamp_witness :
    docker.firstParse docker.timestampFormats (docker.strBytes "2024-01-15T10:30:00Z") =
      some ⟨2024, 1, 15, 10, 30, 0, 0, 0⟩ ∧
    (docker.parseLogEntry "c" (docker.strBytes "2024-01-15T10:30:00Z") exNow).Timestamp =
      exNow ∧
    (docker.parseLogEntry "c" (docker.strBytes "2024-01-15T10:30:00Z") exNow).Message =
      docker.strBytes "2024-01-15T10:30:00Z" := by
  have h := single_token_now_timestamp "c" exNow (docker.strBytes "2024-01-15T10:30:00Z")
    (by decide) (by decide)
  refine ⟨by decide, h.1, ?_⟩
  rw [h.2]
  decide

/-- C9 counterexample: on a line whose parsed timestamp is followed by
two spaces, the message is the remainder after the first space and keeps
a leading space, so it is not trimmed text. -/
theorem message_not_trimmed_counterexample :
    docker.trimSpace
        (docker.parseLogEntry "c"
          (docker.strBytes "2024-01-15T10:30:00Z  hello") exNow).Message ≠
      (docker.parseLogEntry "c"
        (docker.strBytes "2024-01-15T10:30:00Z  hello") exNow).Message := by
  decide

/-- C9 amended: the message of every entry returned by `parseLogEntry`
carries no trailing whitespace; leading whitespace is possible exactly
when a timestamp parses and the remainder after the first space begins
with whitespace. -/
theorem message_no_trailing_whitespace :
    ∀ (cid : String) (line : List Nat) (now : docker.GoTime),
      docker.rtrim (docker.parseLogEntry cid line now).Message =
        (docker.parseLogEntry cid line now).Message := by
  intro cid line now
  by_cases hlne : line = []
  · subst hlne
    rfl
  · rw [docker.parseLogEntry_cons hlne]
    by_cases hne : docker.trimSpace (docker.stripDockerHeader line) = []
    · have hz : docker.parseTail cid line (docker.stripDockerHeader line) now =
          docker.zeroLogEntry := by
        simp only [docker.parseTail, hne]
        simp
      rw [hz]
      rfl
    · cases hsp : (docker.splitNSpace2
          (docker.trimSpace (docker.stripDockerHeader line))).2 with
      | none =>
        rw [docker.parseTail_nosplit hne hsp]
        exact docker.rtrim_trimSpace _
      | some p1 =>
        have hsplit : docker.splitNSpace2
            (docker.trimSpace (docker.stripDockerHeader line)) =
            ((docker.splitNSpace2
              (docker.trimSpace (docker.stripDockerHeader line))).1, some p1) := by
          rw [← hsp]
        cases hfp : docker.firstParse docker.timestampFormats
            (docker.splitNSpace2 (docker.trimSpace (docker.stripDockerHeader line))).1 with
        | none =>
          rw [docker.parseTail_noparse hsplit hfp]
          exact docker.rtrim_trimSpace _
        | some ts =>
          rw [docker.parseTail_parse hsplit hfp]
          have hst := docker.splitNSpace2_some hsplit
          have hfix := docker.rtrim_trimSpace (docker.stripDockerHeader line)
          rw [hst] at hfix
          have hfix2 : docker.rtrim ((
              (docker.splitNSpace2
                (docker.trimSpace (docker.stripDockerHeader line))).1 ++ [32]) ++ p1) =
              ((docker.splitNSpace2
                (docker.trimSpace (docker.stripDockerHeader line))).1 ++ [32]) ++ p1 := by
            simpa [List.append_assoc] using hfix
          exact docker.rtrim_append_self hfix2

/-- C6: after `InitializeContexts` on a fresh manager with distinct
container IDs, `Count` is the number of containers, `GetContextByIndex i`
yields the context holding the `i`-th container, and `GetAllContexts`
returns exactly the created contexts in insertion order with length equal
to `Count`. -/
theorem manager_index_consistency :
    ∀ cs : List docker.Container,
      (cs.map (fun c => c.ID)).Nodup →
      container.Count (container.InitializeContexts container.newManager cs) = cs.length ∧
      (∀ (i : Nat) (h : i < cs.length),
        ∃ ctx : container.CtxState,
          container.GetContextByIndex (container.InitializeContexts container.newManager cs) i
            = some ctx ∧ ctx.Container.ID = (cs.get ⟨i, h⟩).ID) ∧
      container.GetAllContexts (container.InitializeContexts container.newManager cs) =
        cs.map container.newContainerContext ∧
      (container.GetAllContexts (container.InitializeContexts container.newManager cs)).length
        = container.Count (container.InitializeContexts container.newManager cs) := by
  intro cs hnd
  have hord : (container.InitializeContexts container.newManager cs).orderedIDs =
      cs.map (fun c => c.ID) := by
    have h := container.initFold_orderedIDs cs container.newManager
    simpa [container.newManager] using h
  have hctx : (container.InitializeContexts container.newManager cs).contexts =
      cs.map (fun c => (c.ID, container.newContainerContext c)) := by
    have h := container.initFold_contexts cs container.newManager
      (by simp [container.newManager]) hnd
    simpa [container.newManager] using h
  have hcount : container.Count (container.InitializeContexts container.newManager cs) =
      cs.length := by
    show (container.InitializeContexts container.newManager cs).orderedIDs.length = cs.length
    rw [hord]
    simp
  refine ⟨hcount, ?_, ?_, ?_⟩
  · intro i h
    refine ⟨container.newContainerContext (cs.get ⟨i, h⟩), ?_, rfl⟩
    unfold container.GetContextByIndex
    have hlen : i < (container.InitializeContexts container.newManager cs).orderedIDs.length := by
      rw [hord]
      simpa using h
    rw [dif_pos hlen]
    have hid : (container.InitializeContexts container.newManager cs).orderedIDs.get
        ⟨i, hlen⟩ = (cs.get ⟨i, h⟩).ID := by
      rw [List.get_eq_getElem, List.get_eq_getElem, List.getElem_of_eq hord]
      simp
    rw [hid, hctx]
    exact container.lookupA_map_pair cs hnd (cs.get ⟨i, h⟩) (List.get_mem cs i h)
  · show (container.InitializeContexts container.newManager cs).orderedIDs.filterMap
        (container.lookupA (container.InitializeContexts container.newManager cs).contexts) =
      cs.map container.newContainerContext
    rw [hord, hctx]
    exact container.getAll_map_pair cs hnd
  · show (container.GetAllContexts (container.InitializeContexts container.newManager cs)).length
        = container.Count (container.InitializeContexts container.newManager cs)
    have hall : container.GetAllContexts (container.InitializeContexts container.newManager cs)
        = cs.map container.newContainerContext := by
      show (container.InitializeContexts container.newManager cs).orderedIDs.filterMap
          (container.lookupA (container.InitializeContexts container.newManager cs).contexts) =
        cs.map container.newContainerContext
      rw [hord, hctx]
      exact container.getAll_map_pair cs hnd
    rw [hall, hcount]
    simp

/-- Witness for C6 on two concrete containers with distinct IDs. -/
theorem manager_index_consistency_witness :
    container.Count (container.InitializeContexts container.newManager [exA, exB]) = 2 ∧
    container.GetAllContexts (container.InitializeContexts container.newManager [exA, exB]) =
      [container.newContainerContext exA, container.newContainerContext exB] ∧
    (∃ ctx : container.CtxState,
      container.GetContextByIndex (container.InitializeContexts container.newManager [exA, exB]) 0
        = some ctx ∧ ctx.Container.ID = "a1") := by
  have h := manager_index_consistency [exA, exB] (by decide)
  refine ⟨h.1, by simpa using h.2.2.1, ?_⟩
  obtain ⟨ctx, hctx, hid⟩ := h.2.1 0 (by decide)
  exact ⟨ctx, hctx, hid⟩
